import Mathlib

/-!
# Verification of the trello-clone board store and drag-and-drop handlers

Shallow embedding of the board state store (`src/store/useBoardStore.ts`) and
of the drag handlers of `src/components/DndBoard.tsx`.  The TypeScript store
keeps an ordered list of columns, each with an ordered list of cards; all
mutations are pure copy-on-write transformations of that list, so they embed
directly as Lean functions on a `BoardState` structure.  `Date.now()` is made
an explicit `now : Nat` argument of the actions that call it.
-/

namespace Trello

open List (Perm)

open scoped List

/-- A comment on a card (`Comment` in `src/types/store.ts`). -/
structure Comment where
  id : String
  text : String
  author : Option String
  createdAt : Nat
deriving Repr, DecidableEq

/-- A card (`CardType` in `src/types/store.ts`). -/
structure CardType where
  id : Nat
  title : String
  description : Option String := none
  comments : List Comment
deriving Repr, DecidableEq

/-- A column (`ColumnType` in `src/types/store.ts`). -/
structure ColumnType where
  id : Nat
  title : String
  items : List CardType
deriving Repr, DecidableEq

/-- The board slice of the zustand store: `boardTitle` and `columns`
(`BoardState` in `src/store/useBoardStore.ts`; the hydration flag and the
action closures are not data of the board). -/
structure BoardState where
  boardTitle : String
  columns : List ColumnType
deriving Repr, DecidableEq

/-- The seed data `initialColumns` of `src/store/useBoardStore.ts`. -/
def initialColumns : List ColumnType :=
  [ { id := 3453453434, title := "Todo",
      items := [ { id := 123134, title := "Create interview", comments := [] },
                 { id := 12423423434, title := "Review Drag & Drop", comments := [] } ] },
    { id := 2, title := "In Progress",
      items := [ { id := 345345243534, title := "Set up Next.js project", comments := [] } ] },
    { id := 3, title := "Done", items := [] } ]

/-- JavaScript `array.splice(n, 0, a)` for `n ≥ 0`: insert `a` at index `n`,
clamped to the length of the array. -/
def splice (n : Nat) (a : α) (l : List α) : List α :=
  l.take n ++ a :: l.drop n

/-- `addCard(columnId, title)` of `useBoardStore.ts`.  The source computes the
new card id as `Date.now()`; the clock reading is the explicit argument
`now`. -/
def addCard (columnId : Nat) (title : String) (now : Nat) (s : BoardState) : BoardState :=
  { s with columns := s.columns.map (fun column =>
      if column.id == columnId then
        { column with items := column.items ++ [{ id := now, title := title, comments := [] }] }
      else column) }

/-- `moveCard(cardId, fromColumnId, toColumnId, newIndex)` of
`useBoardStore.ts`: look the card up in the (first) column with id
`fromColumnId`; if absent return the state unchanged; otherwise filter the
card out of the source column and `splice` it into the destination column at
`newIndex`. -/
def moveCard (cardId fromColumnId toColumnId : Nat) (newIndex : Nat) (s : BoardState) :
    BoardState :=
  match (s.columns.find? (fun col => col.id == fromColumnId)).bind
      (fun fromColumn => fromColumn.items.find? (fun item => item.id == cardId)) with
  | none => s
  | some cardToMove =>
    let columnsWithoutCard := s.columns.map (fun column =>
      if column.id == fromColumnId then
        { column with items := column.items.filter (fun item => item.id != cardId) }
      else column)
    let updatedColumns := columnsWithoutCard.map (fun column =>
      if column.id == toColumnId then
        { column with items := splice newIndex cardToMove column.items }
      else column)
    { s with columns := updatedColumns }

/-- `reorderCardsInColumn(columnId, cardIds)` of `useBoardStore.ts`: the
column's items are rebuilt by resolving each id of `cardIds` in the column
(`map` + `find?`) and dropping the ids that do not resolve (`filter` on
definedness), i.e. a `filterMap`. -/
def reorderCardsInColumn (columnId : Nat) (cardIds : List Nat) (s : BoardState) : BoardState :=
  { s with columns := s.columns.map (fun column =>
      if column.id == columnId then
        { column with items :=
            cardIds.filterMap (fun cardId => column.items.find? (fun item => item.id == cardId)) }
      else column) }

/-- `addColumn(title)` of `useBoardStore.ts`; the new column id is
`Date.now()`, passed as `now`. -/
def addColumn (title : String) (now : Nat) (s : BoardState) : BoardState :=
  { s with columns := s.columns ++ [{ id := now, title := title, items := [] }] }

/-- `deleteColumn(columnId)` of `useBoardStore.ts`. -/
def deleteColumn (columnId : Nat) (s : BoardState) : BoardState :=
  { s with columns := s.columns.filter (fun column => column.id != columnId) }

/-- `updateColumnTitle(columnId, newTitle)` of `useBoardStore.ts`. -/
def updateColumnTitle (columnId : Nat) (newTitle : String) (s : BoardState) : BoardState :=
  { s with columns := s.columns.map (fun column =>
      if column.id == columnId then { column with title := newTitle } else column) }

/-- `reorderColumns(columnIds)` of `useBoardStore.ts`: rebuild the column list
by resolving each id (`map` + `find?`) and dropping unresolved ids. -/
def reorderColumns (columnIds : List Nat) (s : BoardState) : BoardState :=
  { s with columns :=
      columnIds.filterMap (fun id => s.columns.find? (fun col => col.id == id)) }

/-- The ordered list of card ids of one column. -/
def colIds (col : ColumnType) : List Nat :=
  col.items.map (fun item => item.id)

/-- All card ids on the board, column by column, in order. -/
def boardCardIds (s : BoardState) : List Nat :=
  (s.columns.map colIds).flatten

/-- The column ids of the board, in order. -/
def boardColumnIds (s : BoardState) : List Nat :=
  s.columns.map (fun col => col.id)

/-- Well-formed board: column ids are pairwise distinct and card ids are
pairwise distinct across the whole board (the spec's id-uniqueness
invariant). -/
def wf (s : BoardState) : Prop :=
  (boardColumnIds s).Nodup ∧ (boardCardIds s).Nodup

instance (s : BoardState) : Decidable (wf s) := by
  unfold wf; infer_instance

/-- The board as seeded on first run. -/
def demoBoard : BoardState :=
  { boardTitle := "Demo Board", columns := initialColumns }

example : boardCardIds demoBoard = [123134, 12423423434, 345345243534] := by decide

example : wf demoBoard := by decide

/-! ## Helper lemmas -/

theorem mem_colIds {col : ColumnType} {x : Nat} :
    x ∈ colIds col ↔ ∃ item ∈ col.items, item.id = x := by
  simp [colIds]

/-- `find?` by id commutes with mapping an id-preserving function. -/
theorem find?_map_of_preserves_id (F : ColumnType → ColumnType)
    (hF : ∀ c, (F c).id = c.id) (x : Nat) :
    ∀ cols : List ColumnType,
      (cols.map F).find? (fun c => c.id == x) = (cols.find? (fun c => c.id == x)).map F
  | [] => rfl
  | c :: cols => by
    by_cases h : c.id = x
    · rw [List.map_cons, List.find?_cons_of_pos, List.find?_cons_of_pos]
      · rfl
      · simpa using h
      · simp [hF, h]
    · rw [List.map_cons, List.find?_cons_of_neg, List.find?_cons_of_neg]
      · exact find?_map_of_preserves_id F hF x cols
      · simpa using h
      · simp [hF, h]

/-- Unfolding of `moveCard` when the card is found in the source column. -/
theorem moveCard_eq_of_found (s : BoardState) {cardId fromColumnId toColumnId newIndex : Nat}
    {fc : ColumnType} {card : CardType}
    (hfc : s.columns.find? (fun col => col.id == fromColumnId) = some fc)
    (hcard : fc.items.find? (fun item => item.id == cardId) = some card) :
    moveCard cardId fromColumnId toColumnId newIndex s =
      { s with columns := (s.columns.map (fun column =>
          if column.id == fromColumnId then
            { column with items := column.items.filter (fun item => item.id != cardId) }
          else column)).map (fun column =>
          if column.id == toColumnId then
            { column with items := splice newIndex card column.items }
          else column) } := by
  unfold moveCard
  rw [hfc, Option.some_bind, hcard]

/-- Membership survives mapping a function that fixes non-matching columns. -/
theorem mem_map_of_fixed {cols : List ColumnType} {F : ColumnType → ColumnType}
    {col : ColumnType} (hmem : col ∈ cols) (hfix : F col = col) : col ∈ cols.map F := by
  have := List.mem_map_of_mem F hmem
  rwa [hfix] at this

/-! ## C3: a stale `moveCard` (card not in the source column) is a no-op -/

/-- C3.  If no card with id `cardId` is present in any column with id
`fromColumnId`, then `moveCard cardId fromColumnId toColumnId newIndex`
returns the state unchanged: nothing is removed, nothing is inserted. -/
theorem moveCard_stale_is_noop (s : BoardState) (cardId fromColumnId toColumnId newIndex : Nat)
    (h : ∀ col ∈ s.columns, col.id = fromColumnId → ∀ item ∈ col.items, item.id ≠ cardId) :
    moveCard cardId fromColumnId toColumnId newIndex s = s := by
  cases hfc : s.columns.find? (fun col => col.id == fromColumnId) with
  | none => simp [moveCard, hfc]
  | some fc =>
    have hm : fc ∈ s.columns := List.mem_of_find?_eq_some hfc
    have hid : fc.id = fromColumnId := by
      have := List.find?_some hfc
      simpa using this
    have hnone : fc.items.find? (fun item => item.id == cardId) = none := by
      rw [List.find?_eq_none]
      intro item him
      simpa using h fc hm hid item him
    simp [moveCard, hfc, hnone]

/-- Witness for C3 on the seed board: moving the absent card id 999 out of the
"Todo" column changes nothing. -/
theorem moveCard_stale_is_noop_witness :
    moveCard 999 3453453434 2 0 demoBoard = demoBoard :=
  moveCard_stale_is_noop demoBoard 999 3453453434 2 0 (by decide)

/-! ## C4: `moveCard` to a nonexistent destination column drops the card -/

/-- C4.  If the card with id `cardId` is found in the column `fromColumnId`,
appears in no column other than those with id `fromColumnId`, and no column
has id `toColumnId`, then after
`moveCard cardId fromColumnId toColumnId newIndex` the card id is present in
no column of the board: the removal happened but the insertion found no
destination. -/
theorem moveCard_missing_destination_drops_card (s : BoardState)
    (cardId fromColumnId toColumnId newIndex : Nat) (fc : ColumnType) (card : CardType)
    (hfc : s.columns.find? (fun col => col.id == fromColumnId) = some fc)
    (hcard : fc.items.find? (fun item => item.id == cardId) = some card)
    (hto : ∀ col ∈ s.columns, col.id ≠ toColumnId)
    (honly : ∀ col ∈ s.columns, ∀ item ∈ col.items, item.id = cardId → col.id = fromColumnId) :
    ∀ col ∈ (moveCard cardId fromColumnId toColumnId newIndex s).columns,
      ∀ item ∈ col.items, item.id ≠ cardId := by
  intro col hcol item hitem
  rw [moveCard_eq_of_found s hfc hcard] at hcol
  simp only [List.map_map, List.mem_map] at hcol
  obtain ⟨col0, hcol0, rfl⟩ := hcol
  simp only [Function.comp_apply] at hitem
  have hne : col0.id ≠ toColumnId := hto col0 hcol0
  by_cases hfrom : col0.id = fromColumnId
  · have hne' : fromColumnId ≠ toColumnId := hfrom ▸ hne
    simp [hfrom, hne', List.mem_filter] at hitem
    exact hitem.2
  · simp [hfrom, hne] at hitem
    intro hEq
    exact hfrom (honly col0 hcol0 item hitem hEq)

/-- Witness for C4 on the seed board: moving seed card 123134 from "Todo" to
the nonexistent column 999 leaves the id in no column of the board. -/
theorem moveCard_missing_destination_drops_card_witness :
    123134 ∉ boardCardIds (moveCard 123134 3453453434 999 0 demoBoard) := by
  intro hmem
  obtain ⟨l, hl, hxl⟩ := List.mem_flatten.1 hmem
  obtain ⟨col, hcol, rfl⟩ := List.mem_map.1 hl
  obtain ⟨item, hitem, hid⟩ := List.mem_map.1 hxl
  exact moveCard_missing_destination_drops_card demoBoard 123134 3453453434 999 0
    { id := 3453453434, title := "Todo",
      items := [ { id := 123134, title := "Create interview", comments := [] },
                 { id := 12423423434, title := "Review Drag & Drop", comments := [] } ] }
    { id := 123134, title := "Create interview", comments := [] }
    (by decide) (by decide) (by decide) (by decide) col hcol item hitem hid

/-! ## C5: `reorderCardsInColumn` replaces the column's order by the id list -/

/-- Resolving an id list against a column's items keeps exactly the ids of
that column, in the order of the id list. -/
theorem filterMap_find?_ids (items : List CardType) :
    ∀ ids : List Nat,
      (ids.filterMap (fun cid => items.find? (fun item => item.id == cid))).map
          (fun item => item.id) =
        ids.filter (fun cid => cid ∈ items.map (fun item => item.id))
  | [] => rfl
  | cid :: rest => by
    cases hf : items.find? (fun item => item.id == cid) with
    | none =>
      have hnot : ¬ cid ∈ items.map (fun item => item.id) := by
        rw [List.find?_eq_none] at hf
        simp only [List.mem_map, not_exists, not_and]
        intro item him
        have := hf item him
        simp only [beq_iff_eq] at this
        exact fun hEq => this hEq
      rw [List.filter_cons_of_neg (by simpa using hnot)]
      simp only [List.filterMap_cons, hf]
      exact filterMap_find?_ids items rest
    | some card =>
      have hcid : card.id = cid := by simpa using List.find?_some hf
      have hmem : cid ∈ items.map (fun item => item.id) := by
        exact List.mem_map.2 ⟨card, List.mem_of_find?_eq_some hf, hcid⟩
      rw [List.filter_cons_of_pos (by simpa using hmem)]
      simp only [List.filterMap_cons, hf, List.map_cons, hcid]
      rw [filterMap_find?_ids items rest]

/-- C5.  On a board containing a column with id `columnId`,
`reorderCardsInColumn columnId orderedCardIds` rebuilds that column's item
list to follow `orderedCardIds` exactly: the resulting ids are
`orderedCardIds` with the ids not currently in the column dropped, every
resulting card is a card of the old column, and every other column (any
position whose column has a different id) is untouched. -/
theorem reorderCardsInColumn_replaces_order (s : BoardState) (columnId : Nat)
    (orderedCardIds : List Nat) (col : ColumnType)
    (hcol : s.columns.find? (fun c => c.id == columnId) = some col) :
    (∃ col', (reorderCardsInColumn columnId orderedCardIds s).columns.find?
        (fun c => c.id == columnId) = some col' ∧
      col'.items.map (fun item => item.id) =
        orderedCardIds.filter (fun cid => cid ∈ colIds col) ∧
      ∀ item ∈ col'.items, item ∈ col.items) ∧
    ∀ (i : Nat) (other : ColumnType), s.columns[i]? = some other → other.id ≠ columnId →
      (reorderCardsInColumn columnId orderedCardIds s).columns[i]? = some other := by
  have hid : col.id = columnId := by simpa using List.find?_some hcol
  constructor
  · refine ⟨{ col with items :=
        orderedCardIds.filterMap (fun cardId => col.items.find? (fun item => item.id == cardId)) },
      ?_, ?_, ?_⟩
    · show (s.columns.map _).find? _ = _
      rw [find?_map_of_preserves_id _ (fun c => by split <;> rfl) columnId s.columns,
        hcol]
      simp [hid]
    · simpa [colIds] using filterMap_find?_ids col.items orderedCardIds
    · intro item hitem
      simp only [List.mem_filterMap] at hitem
      obtain ⟨cid, _, hfind⟩ := hitem
      exact List.mem_of_find?_eq_some hfind
  · intro i other hother hne
    show (s.columns.map _)[i]? = _
    rw [List.getElem?_map, hother]
    simp [hne]

/-- Witness for C5, Scenario B of the spec: reordering the seed "Todo" column
(items `[123134, 12423423434]`) by `[12423423434, 123134]` yields exactly that
order, and the other columns stay in place. -/
theorem reorderCardsInColumn_replaces_order_witness :
    (∃ col', (reorderCardsInColumn 3453453434 [12423423434, 123134] demoBoard).columns.find?
        (fun c => c.id == 3453453434) = some col' ∧
      col'.items.map (fun item => item.id) =
        [12423423434, 123134].filter (fun cid => cid ∈ colIds
          { id := 3453453434, title := "Todo",
            items := [ { id := 123134, title := "Create interview", comments := [] },
                       { id := 12423423434, title := "Review Drag & Drop", comments := [] } ] }) ∧
      ∀ item ∈ col'.items, item ∈
        ({ id := 3453453434, title := "Todo",
           items := [ { id := 123134, title := "Create interview", comments := [] },
                      { id := 12423423434, title := "Review Drag & Drop", comments := [] } ] }
          : ColumnType).items) ∧
    ∀ (i : Nat) (other : ColumnType), demoBoard.columns[i]? = some other →
      other.id ≠ 3453453434 →
      (reorderCardsInColumn 3453453434 [12423423434, 123134] demoBoard).columns[i]? =
        some other :=
  reorderCardsInColumn_replaces_order demoBoard 3453453434 [12423423434, 123134]
    { id := 3453453434, title := "Todo",
      items := [ { id := 123134, title := "Create interview", comments := [] },
                 { id := 12423423434, title := "Review Drag & Drop", comments := [] } ] }
    (by decide)

/-! ## C7: `reorderColumns` is idempotent -/

/-- `filterMap` only depends on the values of the function on the list. -/
theorem filterMap_congr_mem {α β : Type _} {f g : α → Option β} :
    ∀ l : List α, (∀ a ∈ l, f a = g a) → l.filterMap f = l.filterMap g
  | [], _ => rfl
  | a :: l, h => by
    rw [List.filterMap_cons, List.filterMap_cons, h a (List.mem_cons_self a l),
      filterMap_congr_mem l (fun b hb => h b (List.mem_cons_of_mem a hb))]

/-- In a list built by resolving ids through `f` (which returns columns
carrying their own id), no column answers to an id that `f` does not
resolve. -/
theorem find?_filterMap_eq_none {f : Nat → Option ColumnType}
    (hf : ∀ i c, f i = some c → c.id = i) (x : Nat) (hx : f x = none)
    (ids : List Nat) : (ids.filterMap f).find? (fun c => c.id == x) = none := by
  rw [List.find?_eq_none]
  intro c hc
  simp only [List.mem_filterMap] at hc
  obtain ⟨i, _, hfi⟩ := hc
  have hcid : c.id = i := hf i c hfi
  simp only [beq_iff_eq, hcid]
  intro hix
  rw [hix] at hfi
  exact Option.noConfusion (hx ▸ hfi)

/-- In a list built by resolving ids through `f`, looking an id of the list
back up returns exactly what `f` returns. -/
theorem find?_filterMap_of_mem {f : Nat → Option ColumnType}
    (hf : ∀ i c, f i = some c → c.id = i) (x : Nat) :
    ∀ ids : List Nat, x ∈ ids →
      (ids.filterMap f).find? (fun c => c.id == x) = f x
  | [], hx => absurd hx (List.not_mem_nil x)
  | i :: ids, hx => by
    cases hfi : f i with
    | none =>
      rw [List.filterMap_cons_none hfi]
      by_cases hix : i = x
      · rw [hix] at hfi
        rw [find?_filterMap_eq_none hf x hfi ids, hfi]
      · have hx' : x ∈ ids := by
          cases List.mem_cons.1 hx with
          | inl h => exact absurd h.symm hix
          | inr h => exact h
        exact find?_filterMap_of_mem hf x ids hx'
    | some c =>
      have hcid : c.id = i := hf i c hfi
      simp only [List.filterMap_cons, hfi]
      by_cases hix : i = x
      · rw [List.find?_cons_of_pos _ (by simp [hcid, hix])]
        rw [← hix, hfi]
      · rw [List.find?_cons_of_neg _ (by simp [hcid, hix])]
        have hx' : x ∈ ids := by
          cases List.mem_cons.1 hx with
          | inl h => exact absurd h.symm hix
          | inr h => exact h
        exact find?_filterMap_of_mem hf x ids hx'

/-- C7.  `reorderColumns ids` applied twice yields the same state as applying
it once, for every board state and every id list (including lists with
unknown or duplicated ids). -/
theorem reorderColumns_idempotent (columnIds : List Nat) (s : BoardState) :
    reorderColumns columnIds (reorderColumns columnIds s) = reorderColumns columnIds s := by
  unfold reorderColumns
  show BoardState.mk s.boardTitle _ = BoardState.mk s.boardTitle _
  refine congrArg (BoardState.mk s.boardTitle) ?_
  have hf : ∀ i c, s.columns.find? (fun col => col.id == i) = some c → c.id = i := by
    intro i c h
    simpa using List.find?_some h
  apply filterMap_congr_mem
  intro x hx
  show (List.filterMap _ columnIds).find? _ = _
  cases hfx : s.columns.find? (fun col => col.id == x) with
  | none => exact find?_filterMap_eq_none hf x hfx columnIds
  | some c => rw [find?_filterMap_of_mem hf x columnIds hx, hfx]

/-! ## C2: `moveCard` removes from the source and inserts clamped -/

/-- `splice` inserts at the index clamped to the length of the list. -/
theorem splice_eq_min (n : Nat) (a : α) (l : List α) :
    splice n a l = l.take (min n l.length) ++ a :: l.drop (min n l.length) := by
  unfold splice
  by_cases h : n ≤ l.length
  · rw [min_eq_left h]
  · have h' : l.length ≤ n := le_of_not_le h
    rw [min_eq_right h', List.take_of_length_le h', List.take_length,
      List.drop_eq_nil_of_le h', List.drop_length]

/-- `splice` grows the list by exactly one element (never a sparse list). -/
theorem splice_length (n : Nat) (a : α) (l : List α) :
    (splice n a l).length = l.length + 1 := by
  unfold splice
  simp only [List.length_append, List.length_take, List.length_cons, List.length_drop]
  omega

/-- The spliced element sits at the clamped index. -/
theorem splice_getElem_min (n : Nat) (a : α) (l : List α) :
    (splice n a l)[min n l.length]? = some a := by
  rw [splice_eq_min]
  have hlen : (l.take (min n l.length)).length = min n l.length := by
    simp [List.length_take]
  rw [List.getElem?_append_right (le_of_eq hlen), hlen, Nat.sub_self]
  simp

/-- Splicing past the end appends. -/
theorem splice_append_of_le (a : α) {n : Nat} {l : List α} (h : l.length ≤ n) :
    splice n a l = l ++ [a] := by
  unfold splice
  rw [List.take_of_length_le h, List.drop_eq_nil_of_le h]

/-- C2.  If the card `cardId` is found in the column `fromColumnId` and a
column with id `toColumnId` exists, then `moveCard` removes the card from the
source column's item list, inserts it into the destination list at
`newIndex` clamped to `[0, length]` (an over-long `newIndex` appends at the
end; the result is one element longer — never sparse — and total, so the
call never throws), and leaves all other columns in place.  `L` below is the
destination list the insertion acts on (the source list already filtered
when source and destination coincide). -/
theorem moveCard_removes_and_inserts_clamped (s : BoardState)
    (cardId fromColumnId toColumnId newIndex : Nat) (fc tc : ColumnType) (card : CardType)
    (hfc : s.columns.find? (fun col => col.id == fromColumnId) = some fc)
    (hcard : fc.items.find? (fun item => item.id == cardId) = some card)
    (htc : s.columns.find? (fun col => col.id == toColumnId) = some tc) :
    (fromColumnId ≠ toColumnId →
      ∃ fc', (moveCard cardId fromColumnId toColumnId newIndex s).columns.find?
          (fun col => col.id == fromColumnId) = some fc' ∧
        fc'.items = fc.items.filter (fun item => item.id != cardId)) ∧
    (∃ L tc', L = (if fromColumnId = toColumnId
          then fc.items.filter (fun item => item.id != cardId) else tc.items) ∧
      (moveCard cardId fromColumnId toColumnId newIndex s).columns.find?
          (fun col => col.id == toColumnId) = some tc' ∧
      tc'.items = L.take (min newIndex L.length) ++ card :: L.drop (min newIndex L.length) ∧
      tc'.items.length = L.length + 1 ∧
      tc'.items[min newIndex L.length]? = some card ∧
      (L.length ≤ newIndex → tc'.items = L ++ [card])) ∧
    ∀ (i : Nat) (other : ColumnType), s.columns[i]? = some other →
      other.id ≠ fromColumnId → other.id ≠ toColumnId →
      (moveCard cardId fromColumnId toColumnId newIndex s).columns[i]? = some other := by
  have hfcid : fc.id = fromColumnId := by simpa using List.find?_some hfc
  have htcid : tc.id = toColumnId := by simpa using List.find?_some htc
  rw [moveCard_eq_of_found s hfc hcard]
  have hFid : ∀ c : ColumnType,
      ((fun column => if column.id == fromColumnId then
          { column with items := column.items.filter (fun item => item.id != cardId) }
        else column) c).id = c.id := fun c => by
    cases h : c.id == fromColumnId <;> simp [h]
  have hGid : ∀ c : ColumnType,
      ((fun column => if column.id == toColumnId then
          { column with items := splice newIndex card column.items }
        else column) c).id = c.id := fun c => by
    cases h : c.id == toColumnId <;> simp [h]
  refine ⟨?_, ?_, ?_⟩
  · intro hne
    refine ⟨{ fc with items := fc.items.filter (fun item => item.id != cardId) }, ?_, rfl⟩
    show ((s.columns.map _).map _).find? _ = _
    rw [find?_map_of_preserves_id _ hGid, find?_map_of_preserves_id _ hFid, hfc]
    simp only [Option.map_some']
    simp [hfcid, hne]
  · refine ⟨(if fromColumnId = toColumnId
        then fc.items.filter (fun item => item.id != cardId) else tc.items),
      { tc with items := splice newIndex card (if fromColumnId = toColumnId
          then fc.items.filter (fun item => item.id != cardId) else tc.items) },
      rfl, ?_, splice_eq_min _ _ _, splice_length _ _ _, splice_getElem_min _ _ _,
      fun hle => splice_append_of_le card hle⟩
    show ((s.columns.map _).map _).find? _ = _
    rw [find?_map_of_preserves_id _ hGid, find?_map_of_preserves_id _ hFid, htc]
    simp only [Option.map_some']
    by_cases heq : fromColumnId = toColumnId
    · have h1 : fc = tc := by
        rw [← heq] at htc
        exact Option.some.inj (hfc.symm.trans htc)
      subst h1
      subst heq
      simp [hfcid]
    · have heq' : toColumnId ≠ fromColumnId := Ne.symm heq
      simp [htcid, heq, heq']
  · intro i other hother hne1 hne2
    show ((s.columns.map _).map _)[i]? = _
    rw [List.getElem?_map, List.getElem?_map, hother]
    simp [hne1, hne2]

/-- The "Todo" column of Scenario A of the spec. -/
def scenarioATodo : ColumnType :=
  { id := 1, title := "Todo",
    items := [ { id := 11, title := "C1", comments := [] },
               { id := 12, title := "C2", comments := [] } ] }

/-- The "Done" column of Scenario A of the spec. -/
def scenarioADone : ColumnType := { id := 2, title := "Done", items := [] }

/-- The board of Scenario A of the spec: columns `[Todo, Done]`, `Todo` holds
cards `[C1, C2]`. -/
def scenarioABoard : BoardState :=
  { boardTitle := "Scenario A", columns := [scenarioATodo, scenarioADone] }

/-- Witness for C2, Scenario A of the spec: `moveCard(C1, Todo, Done, 0)`
yields `Todo.items = [C2]` and `Done.items = [C1]`. -/
theorem moveCard_removes_and_inserts_clamped_witness :
    ((1 : Nat) ≠ 2 →
      ∃ fc', (moveCard 11 1 2 0 scenarioABoard).columns.find?
          (fun col => col.id == 1) = some fc' ∧
        fc'.items = scenarioATodo.items.filter (fun item => item.id != 11)) ∧
    (∃ L tc', L = (if (1 : Nat) = 2
          then scenarioATodo.items.filter (fun item => item.id != 11)
          else scenarioADone.items) ∧
      (moveCard 11 1 2 0 scenarioABoard).columns.find?
          (fun col => col.id == 2) = some tc' ∧
      tc'.items = L.take (min 0 L.length) ++
        { id := 11, title := "C1", comments := [] } :: L.drop (min 0 L.length) ∧
      tc'.items.length = L.length + 1 ∧
      tc'.items[min 0 L.length]? = some { id := 11, title := "C1", comments := [] } ∧
      (L.length ≤ 0 → tc'.items = L ++ [{ id := 11, title := "C1", comments := [] }])) ∧
    (∀ (i : Nat) (other : ColumnType), scenarioABoard.columns[i]? = some other →
      other.id ≠ 1 → other.id ≠ 2 →
      (moveCard 11 1 2 0 scenarioABoard).columns[i]? = some other) ∧
    (moveCard 11 1 2 0 scenarioABoard).columns.map (fun col => col.items.map
      (fun item => item.id)) = [[12], [11]] := by
  have h := moveCard_removes_and_inserts_clamped scenarioABoard 11 1 2 0 scenarioATodo
    scenarioADone { id := 11, title := "C1", comments := [] }
    (by decide) (by decide) (by decide)
  exact ⟨h.1, h.2.1, h.2.2, by decide⟩

/-! ## The drag handlers of `DndBoard.tsx` -/

/-- One invocation of a board-store mutation action (the store's action API
used by `DndBoard.tsx`). -/
inductive StoreAction where
  | addCardAct (columnId : Nat) (title : String) (now : Nat)
  | moveCardAct (cardId fromColumnId toColumnId newIndex : Nat)
  | reorderCardsInColumnAct (columnId : Nat) (cardIds : List Nat)
  | reorderColumnsAct (columnIds : List Nat)
  | addColumnAct (title : String) (now : Nat)
  | deleteColumnAct (columnId : Nat)
deriving Repr, DecidableEq

/-- Apply one store action to the board state. -/
def applyAction : StoreAction → BoardState → BoardState
  | .addCardAct columnId title now => addCard columnId title now
  | .moveCardAct cardId fromColumnId toColumnId newIndex =>
      moveCard cardId fromColumnId toColumnId newIndex
  | .reorderCardsInColumnAct columnId cardIds => reorderCardsInColumn columnId cardIds
  | .reorderColumnsAct columnIds => reorderColumns columnIds
  | .addColumnAct title now => addColumn title now
  | .deleteColumnAct columnId => deleteColumn columnId

/-- Apply a sequence of store actions in order. -/
def applyActions (acts : List StoreAction) (s : BoardState) : BoardState :=
  acts.foldl (fun st act => applyAction act st) s

/-- Every committed store mutation triggers exactly one synchronous
persistence write (the zustand `persist` middleware writes the snapshot on
each `set`), so a handler's write count is the number of store actions it
commits. -/
def persistWrites (acts : List StoreAction) : Nat := acts.length

/-- The transient preview state `dragPosition` of `DndBoard.tsx`. -/
structure DragPosition where
  activeId : Nat
  fromColumnId : Nat
  toColumnId : Nat
  toIndex : Nat
deriving Repr, DecidableEq

/-- `handleDragOver` of `DndBoard.tsx`.  Inputs: whether the dragged entity
is a column (`active.data.current?.type === 'column'`), the dragged id, the
hovered target (`event.over`, `none` when there is no hover target), the
current columns of the store, and the current local `dragPosition`.  Output:
the list of store actions the handler invokes, and the new `dragPosition`
(the source only ever calls `setDragPosition`; it invokes no store action).
The two branches of the same/cross-column `if` compute the same index, as in
the source. -/
def handleDragOver (activeIsColumn : Bool) (activeId : Nat) (over : Option Nat)
    (columns : List ColumnType) (dragPosition : Option DragPosition) :
    List StoreAction × Option DragPosition :=
  match over with
  | none => ([], none)
  | some overId =>
    if activeIsColumn then
      ([], dragPosition)
    else
      match columns.find? (fun col => col.items.any (fun item => item.id == activeId)),
          columns.find? (fun col =>
            col.items.any (fun item => item.id == overId) || col.id == overId) with
      | some activeColumn, some overColumn =>
        let toIndex := if activeColumn.id == overColumn.id then
            match overColumn.items.findIdx? (fun item => item.id == overId) with
            | some overIndex => overIndex
            | none => overColumn.items.length
          else
            match overColumn.items.findIdx? (fun item => item.id == overId) with
            | some overIndex => overIndex
            | none => overColumn.items.length
        ([], some { activeId := activeId, fromColumnId := activeColumn.id,
                    toColumnId := overColumn.id, toIndex := toIndex })
      | _, _ => ([], none)

/-- `arrayMove` of `@dnd-kit/sortable`: remove the element at index `i`,
then insert it at index `j` of the shortened array (insertion clamps like
JavaScript `splice`).  The handlers only call it with `i` a valid
`findIndex` result, so the out-of-range branch (where JavaScript would
insert `undefined`) keeps the list unchanged. -/
def arrayMove (l : List α) (i j : Nat) : List α :=
  match l[i]? with
  | some a => splice j a (l.eraseIdx i)
  | none => l

/-- The outcome of the column branch of `handleDragEnd`: either no store
mutation, or a single `reorderColumns` call with the given id order. -/
inductive ColumnDragOutcome where
  | noMutation
  | callReorderColumns (columnIds : List Nat)
deriving Repr, DecidableEq

/-- The column branch of `handleDragEnd` in `DndBoard.tsx` (taken when both
the dragged and the hovered entity are columns): look up both indices in the
column order, and if they differ call `reorderColumns` with the
`arrayMove`d id order.  Both ids are ids of columns rendered from
`columns` (the `SortableContext` items), so `findIndex` finds both; with
only one missing JavaScript would index with `-1`, a case the DOM cannot
produce. -/
def resolveColumnDragEnd (activeId overId : Nat) (columns : List ColumnType) :
    ColumnDragOutcome :=
  match columns.findIdx? (fun col => col.id == activeId),
      columns.findIdx? (fun col => col.id == overId) with
  | some activeIndex, some overIndex =>
    if activeIndex ≠ overIndex then
      ColumnDragOutcome.callReorderColumns
        (arrayMove (columns.map (fun col => col.id)) activeIndex overIndex)
    else ColumnDragOutcome.noMutation
  | _, _ => ColumnDragOutcome.noMutation

/-! ## C10: `handleDragOver` never mutates the store, never persists -/

/-- C10.  For every board state and every drag-over event (any dragged
entity, hover target, and current preview), `handleDragOver` commits no
store action: the board state obtained by applying everything it invokes is
the original state, and it performs zero persistence writes.  Only the
returned transient `dragPosition` may differ. -/
theorem handleDragOver_no_store_mutation (activeIsColumn : Bool) (activeId : Nat)
    (over : Option Nat) (s : BoardState) (dragPosition : Option DragPosition) :
    (handleDragOver activeIsColumn activeId over s.columns dragPosition).1 = [] ∧
    applyActions (handleDragOver activeIsColumn activeId over s.columns dragPosition).1 s = s ∧
    persistWrites (handleDragOver activeIsColumn activeId over s.columns dragPosition).1 = 0 := by
  have h1 : (handleDragOver activeIsColumn activeId over s.columns dragPosition).1 = [] := by
    rcases over with _ | overId
    · rfl
    · cases activeIsColumn with
      | true => rfl
      | false =>
        cases hA : s.columns.find? (fun col => col.items.any (fun item => item.id == activeId))
          with
        | none => simp [handleDragOver, hA]
        | some activeColumn =>
          cases hB : s.columns.find? (fun col =>
              col.items.any (fun item => item.id == overId) || col.id == overId) with
          | none => simp [handleDragOver, hA, hB]
          | some overColumn => simp [handleDragOver, hA, hB]
  refine ⟨h1, ?_, ?_⟩
  · rw [h1]
    rfl
  · rw [h1]
    rfl

/-! ## C6: column drag-end commits a single array-move reorder -/

/-- With pairwise-distinct ids, the index found for a column's id is the
column's position. -/
theorem findIdx?_eq_of_nodup :
    ∀ (cols : List ColumnType) (i : Nat) (c : ColumnType),
      (cols.map (fun col => col.id)).Nodup → cols[i]? = some c →
      cols.findIdx? (fun col => col.id == c.id) = some i
  | [], i, c, _, h => by simp at h
  | c0 :: rest, 0, c, hN, h => by
    have hc : c0 = c := by simpa using h
    subst hc
    simp [List.findIdx?_cons]
  | c0 :: rest, (k + 1), c, hN, h => by
    have hk : rest[k]? = some c := by simpa using h
    have hmem : c ∈ rest := List.getElem?_mem hk
    have hN' : (∀ x ∈ rest, ¬ x.id = c0.id) ∧ (rest.map (fun col => col.id)).Nodup := by
      simpa using hN
    have hne : ¬ c0.id = c.id := fun hEq => hN'.1 c hmem hEq.symm
    rw [List.findIdx?_cons, if_neg (by simpa using hne), List.findIdx?_succ,
      findIdx?_eq_of_nodup rest k c hN'.2 hk]
    rfl

/-- C6.  When a column drag ends over a column (the dragged column at
position `i`, the hovered column at position `j`, positions taken in the
order before the move), the commit calls `reorderColumns` with the order
obtained by removing the dragged id at `i` and splicing it back in at `j`
(standard array move) whenever `i ≠ j`, and performs no store mutation when
`i = j`. -/
theorem handleDragEnd_column_commit (s : BoardState) (activeId overId : Nat) (i j : Nat)
    (colA colO : ColumnType)
    (hN : (boardColumnIds s).Nodup)
    (hi : s.columns[i]? = some colA) (hA : colA.id = activeId)
    (hj : s.columns[j]? = some colO) (hO : colO.id = overId) :
    (i ≠ j → resolveColumnDragEnd activeId overId s.columns =
      ColumnDragOutcome.callReorderColumns
        (splice j activeId ((boardColumnIds s).eraseIdx i))) ∧
    (i = j → resolveColumnDragEnd activeId overId s.columns =
      ColumnDragOutcome.noMutation) := by
  have hIdxA : s.columns.findIdx? (fun col => col.id == activeId) = some i := by
    rw [← hA]
    exact findIdx?_eq_of_nodup s.columns i colA hN hi
  have hIdxO : s.columns.findIdx? (fun col => col.id == overId) = some j := by
    rw [← hO]
    exact findIdx?_eq_of_nodup s.columns j colO hN hj
  have hgid : (s.columns.map (fun col => col.id))[i]? = some activeId := by
    rw [List.getElem?_map, hi, Option.map_some', hA]
  constructor
  · intro hne
    unfold resolveColumnDragEnd
    rw [hIdxA, hIdxO]
    show (if i ≠ j then
        ColumnDragOutcome.callReorderColumns
          (arrayMove (s.columns.map (fun col => col.id)) i j)
      else ColumnDragOutcome.noMutation) = _
    rw [if_pos hne]
    unfold arrayMove
    rw [hgid]
    rfl
  · intro hEq
    unfold resolveColumnDragEnd
    rw [hIdxA, hIdxO]
    show (if i ≠ j then
        ColumnDragOutcome.callReorderColumns
          (arrayMove (s.columns.map (fun col => col.id)) i j)
      else ColumnDragOutcome.noMutation) = _
    rw [if_neg (fun h => h hEq)]

/-- Witness for C6, Scenario C of the spec, on the seed board whose column
order is `[Todo, In Progress, Done]` (ids `[3453453434, 2, 3]`): dragging
"Done" (index 2) onto "Todo" (index 0) calls `reorderColumns` with
`[Done, Todo, In Progress]`, and dropping a column onto itself mutates
nothing. -/
theorem handleDragEnd_column_commit_witness :
    ((2 : Nat) ≠ 0 → resolveColumnDragEnd 3 3453453434 demoBoard.columns =
      ColumnDragOutcome.callReorderColumns
        (splice 0 3 ((boardColumnIds demoBoard).eraseIdx 2))) ∧
    ((2 : Nat) = 0 → resolveColumnDragEnd 3 3453453434 demoBoard.columns =
      ColumnDragOutcome.noMutation) ∧
    resolveColumnDragEnd 3 3453453434 demoBoard.columns =
      ColumnDragOutcome.callReorderColumns [3, 3453453434, 2] ∧
    resolveColumnDragEnd 3 3 demoBoard.columns = ColumnDragOutcome.noMutation := by
  have h := handleDragEnd_column_commit demoBoard 3 3453453434 2 0
    { id := 3, title := "Done", items := [] }
    { id := 3453453434, title := "Todo",
      items := [ { id := 123134, title := "Create interview", comments := [] },
                 { id := 12423423434, title := "Review Drag & Drop", comments := [] } ] }
    (by decide) (by decide) (by decide) (by decide) (by decide)
  exact ⟨h.1, h.2, by decide, by decide⟩

/-! ## C8: the persisted-snapshot migration -/

/-- The `comments` field of a card as found in a persisted snapshot: untyped
JSON, either an array of comments or some non-array value (the old object
format; the migration only checks `Array.isArray`). -/
inductive PersistedComments where
  | array (cs : List Comment)
  | nonArray
deriving Repr, DecidableEq

/-- A card as found in a persisted snapshot (its `comments` field untyped). -/
structure PersistedCard where
  id : Nat
  title : String
  description : Option String := none
  comments : PersistedComments
deriving Repr, DecidableEq

/-- A column as found in a persisted snapshot. -/
structure PersistedColumn where
  id : Nat
  title : String
  items : List PersistedCard
deriving Repr, DecidableEq

/-- The persisted snapshot: `boardTitle` may be absent (snapshots from
versions before 2); the JavaScript falsiness check
`state.boardTitle || 'Demo Board'` also replaces a present-but-empty
string. -/
structure PersistedState where
  boardTitle : Option String := none
  columns : List PersistedColumn
deriving Repr, DecidableEq

/-- The `migrate` option of `persist` in `useBoardStore.ts`, called by the
middleware with the stored snapshot and its stored version (the store's
current version is 2).  Version 0 normalizes every card's non-array
`comments` to `[]`; version ≤ 1 populates `boardTitle`, defaulting to
`"Demo Board"` when it is absent (or falsy). -/
def migrate (persistedState : PersistedState) (version : Nat) : PersistedState :=
  let state := persistedState
  let state := if version = 0 then
      { state with columns := state.columns.map (fun column =>
          { column with items := column.items.map (fun card =>
              { card with comments := match card.comments with
                  | PersistedComments.array cs => PersistedComments.array cs
                  | PersistedComments.nonArray => PersistedComments.array [] }) }) }
    else state
  if version ≤ 1 then
    { state with boardTitle := some (match state.boardTitle with
        | some t => if t = "" then "Demo Board" else t
        | none => "Demo Board") }
  else state

/-- C8.  Migrating a version-0 snapshot (to the current version 2): a card
whose persisted `comments` is a non-array value ends with `comments = []`,
the migrated snapshot's `boardTitle` is populated with a non-empty title
(equal to `"Demo Board"` when it was absent), and running the migration
again on the already-migrated snapshot (now stored at version 2) changes
nothing. -/
theorem migrate_v0_normalizes_comments_and_title (s : PersistedState) (i j : Nat)
    (col : PersistedColumn) (card : PersistedCard)
    (hcol : s.columns[i]? = some col) (hcard : col.items[j]? = some card)
    (hbad : card.comments = PersistedComments.nonArray) :
    (∃ col' card', (migrate s 0).columns[i]? = some col' ∧ col'.items[j]? = some card' ∧
      card'.comments = PersistedComments.array []) ∧
    (∃ t, (migrate s 0).boardTitle = some t ∧ t ≠ "" ∧
      (s.boardTitle = none → t = "Demo Board")) ∧
    migrate (migrate s 0) 2 = migrate s 0 := by
  have hbt : (migrate s 0).boardTitle = some (match s.boardTitle with
      | some t => if t = "" then "Demo Board" else t
      | none => "Demo Board") := rfl
  refine ⟨?_, ?_, rfl⟩
  · refine ⟨{ col with items := col.items.map (fun c =>
        { c with comments := match c.comments with
            | PersistedComments.array cs => PersistedComments.array cs
            | PersistedComments.nonArray => PersistedComments.array [] }) },
      { card with comments := PersistedComments.array [] }, ?_, ?_, rfl⟩
    · show (s.columns.map _)[i]? = _
      rw [List.getElem?_map, hcol, Option.map_some']
    · show (col.items.map _)[j]? = _
      rw [List.getElem?_map, hcard, Option.map_some', hbad]
  · cases hb : s.boardTitle with
    | none =>
      refine ⟨"Demo Board", ?_, by decide, fun _ => rfl⟩
      rw [hbt, hb]
    | some t0 =>
      by_cases ht0 : t0 = ""
      · refine ⟨"Demo Board", ?_, by decide, fun h => rfl⟩
        rw [hbt, hb]
        simp [ht0]
      · refine ⟨t0, ?_, ht0, fun h => Option.noConfusion h⟩
        rw [hbt, hb]
        simp [ht0]

/-- Witness for C8 on a concrete version-0 snapshot with no `boardTitle` and
one card whose `comments` is the old non-array format. -/
theorem migrate_v0_normalizes_comments_and_title_witness :
    (∃ col' card', (migrate { boardTitle := none, columns :=
        [ { id := 1, title := "Todo", items :=
            [ { id := 5, title := "A", comments := PersistedComments.nonArray } ] } ] } 0
      ).columns[0]? = some col' ∧ col'.items[0]? = some card' ∧
      card'.comments = PersistedComments.array []) ∧
    (∃ t, (migrate { boardTitle := none, columns :=
        [ { id := 1, title := "Todo", items :=
            [ { id := 5, title := "A", comments := PersistedComments.nonArray } ] } ] } 0
      ).boardTitle = some t ∧ t ≠ "" ∧
      (({ boardTitle := none, columns :=
        [ { id := 1, title := "Todo", items :=
            [ { id := 5, title := "A", comments := PersistedComments.nonArray } ] } ] }
        : PersistedState).boardTitle = none → t = "Demo Board")) ∧
    migrate (migrate { boardTitle := none, columns :=
        [ { id := 1, title := "Todo", items :=
            [ { id := 5, title := "A", comments := PersistedComments.nonArray } ] } ] } 0) 2 =
      migrate { boardTitle := none, columns :=
        [ { id := 1, title := "Todo", items :=
            [ { id := 5, title := "A", comments := PersistedComments.nonArray } ] } ] } 0 :=
  migrate_v0_normalizes_comments_and_title _ 0 0
    { id := 1, title := "Todo", items :=
      [ { id := 5, title := "A", comments := PersistedComments.nonArray } ] }
    { id := 5, title := "A", comments := PersistedComments.nonArray }
    (by decide) (by decide) (by decide)

/-! ## C1: permutation infrastructure for the card-conservation invariant -/

/-- Inserting with `splice` is, up to order, a `cons`. -/
theorem splice_perm (n : Nat) (a : α) (l : List α) : (splice n a l).Perm (a :: l) := by
  unfold splice
  refine List.Perm.trans List.perm_middle ?_
  rw [List.take_append_drop]

/-- Swap the first two blocks of a three-block append, up to order. -/
theorem append_left_comm_perm (A B C : List α) : (A ++ (B ++ C)).Perm (B ++ (A ++ C)) := by
  calc A ++ (B ++ C) = (A ++ B) ++ C := (List.append_assoc A B C).symm
    _ ~ (B ++ A) ++ C := List.Perm.append_right C List.perm_append_comm
    _ = B ++ (A ++ C) := List.append_assoc B A C

/-- A map that fixes every element of a list is the identity on it. -/
theorem map_eq_self_of (F : ColumnType → ColumnType) :
    ∀ cols : List ColumnType, (∀ c ∈ cols, F c = c) → cols.map F = cols
  | [], _ => rfl
  | c :: cols, h => by
    rw [List.map_cons, h c (List.mem_cons_self c cols),
      map_eq_self_of F cols (fun b hb => h b (List.mem_cons_of_mem c hb))]

/-- Central update lemma: a columnwise map `F` that fixes every column whose
id is not `cid`, applied to a column list with pairwise-distinct ids in
which `cid` resolves to `fc`, changes the flattened card-id list only inside
`fc`'s block: both before and after, the flattened ids split (up to order)
into the block of the resolved column plus one common rest. -/
theorem update_flatten_perm (cid : Nat) (F : ColumnType → ColumnType)
    (hF : ∀ c, ¬ c.id = cid → F c = c) :
    ∀ (cols : List ColumnType) (fc : ColumnType),
      (cols.map (fun col => col.id)).Nodup →
      cols.find? (fun col => col.id == cid) = some fc →
      ∃ rest, ((cols.map colIds).flatten).Perm (colIds fc ++ rest) ∧
        (((cols.map F).map colIds).flatten).Perm (colIds (F fc) ++ rest)
  | [], fc, _, hfind => by simp at hfind
  | c0 :: cols, fc, hN, hfind => by
    have hN' : (∀ x ∈ cols, ¬ x.id = c0.id) ∧ (cols.map (fun col => col.id)).Nodup := by
      simpa using hN
    by_cases h0 : c0.id = cid
    · have hfc : fc = c0 := by
        rw [List.find?_cons_of_pos _ (by simpa using h0)] at hfind
        exact (Option.some.inj hfind).symm
      subst hfc
      refine ⟨(cols.map colIds).flatten, ?_, ?_⟩
      · rfl
      · have hfix : cols.map F = cols :=
          map_eq_self_of F cols (fun b hb => hF b (fun hEq => hN'.1 b hb (hEq.trans h0.symm)))
        rw [List.map_cons, hfix]
        rfl
    · rw [List.find?_cons_of_neg _ (by simpa using h0)] at hfind
      obtain ⟨rest', h1, h2⟩ := update_flatten_perm cid F hF cols fc hN'.2 hfind
      refine ⟨colIds c0 ++ rest', ?_, ?_⟩
      · calc ((c0 :: cols).map colIds).flatten = colIds c0 ++ (cols.map colIds).flatten := rfl
          _ ~ colIds c0 ++ (colIds fc ++ rest') := List.Perm.append_left (colIds c0) h1
          _ ~ colIds fc ++ (colIds c0 ++ rest') := append_left_comm_perm _ _ _
      · have hc0 : F c0 = c0 := hF c0 h0
        calc (((c0 :: cols).map F).map colIds).flatten
            = colIds (F c0) ++ ((cols.map F).map colIds).flatten := rfl
          _ = colIds c0 ++ ((cols.map F).map colIds).flatten := by rw [hc0]
          _ ~ colIds c0 ++ (colIds (F fc) ++ rest') := List.Perm.append_left (colIds c0) h2
          _ ~ colIds (F fc) ++ (colIds c0 ++ rest') := append_left_comm_perm _ _ _

/-- Filtering items by id commutes with taking ids. -/
theorem map_id_filter (p : Nat → Bool) :
    ∀ items : List CardType,
      (items.filter (fun item => p item.id)).map (fun item => item.id) =
        (items.map (fun item => item.id)).filter p
  | [] => rfl
  | item :: items => by
    cases hp : p item.id <;>
      simp [List.filter_cons, hp, map_id_filter p items]

/-- Filtering an absent value away changes nothing. -/
theorem filter_bne_of_not_mem {a : α} [DecidableEq α] :
    ∀ {l : List α}, a ∉ l → l.filter (fun x => x != a) = l
  | [], _ => rfl
  | b :: l, h => by
    have hb : ¬ b = a := fun hEq => h (hEq ▸ List.mem_cons_self b l)
    rw [List.filter_cons_of_pos (by simpa using hb),
      filter_bne_of_not_mem (fun hmem => h (List.mem_cons_of_mem b hmem))]

/-- In a duplicate-free list, an element and the rest: the list is a
permutation of the element consed onto the list filtered of it. -/
theorem nodup_perm_cons_filter {a : α} [DecidableEq α] :
    ∀ {l : List α}, l.Nodup → a ∈ l → l.Perm (a :: l.filter (fun x => x != a))
  | [], _, ha => absurd ha (List.not_mem_nil a)
  | b :: l, hN, ha => by
    have hN' : b ∉ l ∧ l.Nodup := List.nodup_cons.1 hN
    by_cases hb : b = a
    · subst hb
      rw [List.filter_cons_of_neg (by simp), filter_bne_of_not_mem hN'.1]
    · have ha' : a ∈ l := by
        cases List.mem_cons.1 ha with
        | inl h => exact absurd h.symm hb
        | inr h => exact h
      rw [List.filter_cons_of_pos (by simpa using hb)]
      calc b :: l ~ b :: (a :: l.filter (fun x => x != a)) :=
            List.Perm.cons b (nodup_perm_cons_filter hN'.2 ha')
        _ ~ a :: (b :: l.filter (fun x => x != a)) := List.Perm.swap a b _

/-- An id-preserving columnwise map keeps the column-id list. -/
theorem map_ids_eq (F : ColumnType → ColumnType) (hF : ∀ c, (F c).id = c.id) :
    ∀ cols : List ColumnType,
      (cols.map F).map (fun col => col.id) = cols.map (fun col => col.id)
  | [] => rfl
  | c :: cols => by
    rw [List.map_cons, List.map_cons, List.map_cons, hF c, map_ids_eq F hF cols]

/-- `addCard` keeps the column-id list. -/
theorem boardColumnIds_addCard (columnId : Nat) (title : String) (now : Nat) (s : BoardState) :
    boardColumnIds (addCard columnId title now s) = boardColumnIds s :=
  map_ids_eq _ (fun c => by cases h : c.id == columnId <;> simp [h]) s.columns

/-- `reorderCardsInColumn` keeps the column-id list. -/
theorem boardColumnIds_reorderCardsInColumn (columnId : Nat) (cardIds : List Nat)
    (s : BoardState) :
    boardColumnIds (reorderCardsInColumn columnId cardIds s) = boardColumnIds s :=
  map_ids_eq _ (fun c => by cases h : c.id == columnId <;> simp [h]) s.columns

/-- `moveCard` keeps the column-id list. -/
theorem boardColumnIds_moveCard (cardId fromColumnId toColumnId newIndex : Nat)
    (s : BoardState) :
    boardColumnIds (moveCard cardId fromColumnId toColumnId newIndex s) = boardColumnIds s := by
  cases hfc : s.columns.find? (fun col => col.id == fromColumnId) with
  | none => simp [moveCard, hfc]
  | some fc =>
    cases hcard : fc.items.find? (fun item => item.id == cardId) with
    | none => simp [moveCard, hfc, Option.some_bind, hcard]
    | some card =>
      rw [moveCard_eq_of_found s hfc hcard]
      show ((s.columns.map _).map _).map _ = _
      rw [map_ids_eq _ (fun c => by cases h : c.id == toColumnId <;> simp [h]),
        map_ids_eq _ (fun c => by cases h : c.id == fromColumnId <;> simp [h])]
      rfl

/-- Appending a card to a column appends its id to the column's id list. -/
theorem colIds_append_card (col : ColumnType) (c : CardType) :
    colIds { col with items := col.items ++ [c] } = colIds col ++ [c.id] := by
  simp [colIds]

/-- `addCard` either leaves the card-id list unchanged (unknown column) or
extends it, up to order, by exactly the new id `now`. -/
theorem boardCardIds_addCard (columnId : Nat) (title : String) (now : Nat) (s : BoardState)
    (hN : (boardColumnIds s).Nodup) :
    boardCardIds (addCard columnId title now s) = boardCardIds s ∨
    (boardCardIds (addCard columnId title now s)).Perm (now :: boardCardIds s) := by
  cases hfc : s.columns.find? (fun col => col.id == columnId) with
  | none =>
    left
    have hno : ∀ c ∈ s.columns, ¬ c.id = columnId := by
      rw [List.find?_eq_none] at hfc
      intro c hc
      simpa using hfc c hc
    show ((s.columns.map _).map colIds).flatten = _
    rw [map_eq_self_of _ s.columns (fun c hc => by simp [hno c hc])]
    rfl
  | some fc =>
    right
    have hfcid : fc.id = columnId := by simpa using List.find?_some hfc
    obtain ⟨rest, h1, h2⟩ := update_flatten_perm columnId
      (fun column => if column.id == columnId then
        { column with items :=
            column.items ++ [{ id := now, title := title, comments := [] }] }
      else column)
      (fun c hc => by simp [hc]) s.columns fc hN hfc
    have hFeq : (if fc.id == columnId then
        { fc with items := fc.items ++ [{ id := now, title := title, comments := [] }] }
      else fc) =
        { fc with items := fc.items ++ [{ id := now, title := title, comments := [] }] } := by
      simp [hfcid]
    rw [hFeq] at h2
    simp only [colIds_append_card] at h2
    refine List.Perm.trans h2 ?_
    calc (colIds fc ++ [now]) ++ rest
        ~ ([now] ++ colIds fc) ++ rest := List.Perm.append_right rest List.perm_append_comm
      _ = now :: (colIds fc ++ rest) := by simp
      _ ~ now :: boardCardIds s := List.Perm.cons now h1.symm

/-- Two sequential columnwise updates (as `moveCard` performs) split the
flattened card-id list, at each stage, into the updated column's block plus
a common rest. -/
theorem two_update_flatten_perm (fromId toId : Nat) (F G : ColumnType → ColumnType)
    (hFid : ∀ c, (F c).id = c.id)
    (hFfix : ∀ c, ¬ c.id = fromId → F c = c)
    (hGfix : ∀ c, ¬ c.id = toId → G c = c)
    (cols : List ColumnType) (fc tc : ColumnType)
    (hN : (cols.map (fun col => col.id)).Nodup)
    (hfc : cols.find? (fun col => col.id == fromId) = some fc)
    (htc : cols.find? (fun col => col.id == toId) = some tc) :
    ∃ r1 r2,
      ((cols.map colIds).flatten).Perm (colIds fc ++ r1) ∧
      (((cols.map F).map colIds).flatten).Perm (colIds (F fc) ++ r1) ∧
      (((cols.map F).map colIds).flatten).Perm (colIds (F tc) ++ r2) ∧
      ((((cols.map F).map G).map colIds).flatten).Perm (colIds (G (F tc)) ++ r2) := by
  obtain ⟨r1, h11, h12⟩ := update_flatten_perm fromId F hFfix cols fc hN hfc
  have htc2 : (cols.map F).find? (fun col => col.id == toId) = some (F tc) := by
    rw [find?_map_of_preserves_id F hFid toId cols, htc]
    rfl
  obtain ⟨r2, h21, h22⟩ := update_flatten_perm toId G hGfix (cols.map F) (F tc)
    (by rw [map_ids_eq F hFid]; exact hN) htc2
  exact ⟨r1, r2, h11, h12, h21, h22⟩

/-- Splicing a card into a column conses its id onto the column's id list,
up to order. -/
theorem colIds_splice_perm (n : Nat) (c : CardType) (col : ColumnType) :
    (colIds { col with items := splice n c col.items }).Perm (c.id :: colIds col) := by
  show ((splice n c col.items).map (fun item => item.id)).Perm _
  exact List.Perm.map (fun item => item.id) (splice_perm n c col.items)

/-- In a duplicate-free column containing `cardId`, the id list is a
permutation of `cardId` consed onto the id list of the filtered column. -/
theorem colIds_filter_perm (cardId : Nat) (col : ColumnType)
    (hN : (colIds col).Nodup) (hmem : cardId ∈ colIds col) :
    (colIds col).Perm (cardId ::
      colIds { col with items := col.items.filter (fun item => item.id != cardId) }) := by
  have hEq : colIds { col with items := col.items.filter (fun item => item.id != cardId) } =
      (colIds col).filter (fun x => x != cardId) :=
    map_id_filter (fun x => x != cardId) col.items
  rw [hEq]
  exact nodup_perm_cons_filter hN hmem

/-- A valid `moveCard` (destination column exists) permutes the card-id
list; otherwise (card not found) it is the identity on the state. -/
theorem boardCardIds_moveCard_perm (cardId fromColumnId toColumnId newIndex : Nat)
    (s : BoardState) (hwf : wf s) (hto : toColumnId ∈ boardColumnIds s) :
    (boardCardIds (moveCard cardId fromColumnId toColumnId newIndex s)).Perm
      (boardCardIds s) ∨
    moveCard cardId fromColumnId toColumnId newIndex s = s := by
  cases hfc : s.columns.find? (fun col => col.id == fromColumnId) with
  | none =>
    right
    simp [moveCard, hfc]
  | some fc =>
    cases hcard : fc.items.find? (fun item => item.id == cardId) with
    | none =>
      right
      simp [moveCard, hfc, Option.some_bind, hcard]
    | some card =>
      left
      have hfcid : fc.id = fromColumnId := by simpa using List.find?_some hfc
      have hcardid : card.id = cardId := by simpa using List.find?_some hcard
      have hcmem : card ∈ fc.items := List.mem_of_find?_eq_some hcard
      have hsome : (s.columns.find? (fun col => col.id == toColumnId)).isSome := by
        rw [List.find?_isSome]
        obtain ⟨tc0, htcmem, htcid0⟩ := List.mem_map.1 hto
        exact ⟨tc0, htcmem, by simp [htcid0]⟩
      obtain ⟨tc, htc⟩ := Option.isSome_iff_exists.1 hsome
      have htcid : tc.id = toColumnId := by simpa using List.find?_some htc
      rw [moveCard_eq_of_found s hfc hcard]
      set F : ColumnType → ColumnType := fun column =>
        if column.id == fromColumnId then
          { column with items := column.items.filter (fun item => item.id != cardId) }
        else column with hFdef
      set G : ColumnType → ColumnType := fun column =>
        if column.id == toColumnId then
          { column with items := splice newIndex card column.items }
        else column with hGdef
      have hFid : ∀ c, (F c).id = c.id := fun c => by
        rw [hFdef]
        cases h : c.id == fromColumnId <;> simp [h]
      have hFfix : ∀ c, ¬ c.id = fromColumnId → F c = c := fun c hc => by
        rw [hFdef]
        simp [hc]
      have hGfix : ∀ c, ¬ c.id = toColumnId → G c = c := fun c hc => by
        rw [hGdef]
        simp [hc]
      obtain ⟨r1, r2, h11, h12, h21, h22⟩ := two_update_flatten_perm fromColumnId toColumnId
        F G hFid hFfix hGfix s.columns fc tc hwf.1 hfc htc
      have hXid : (F tc).id = toColumnId := (hFid tc).trans htcid
      have hGX : G (F tc) = { F tc with items := splice newIndex card (F tc).items } := by
        rw [hGdef]
        simp [hXid]
      rw [hGX] at h22
      have hsplice : (colIds { F tc with items := splice newIndex card (F tc).items }).Perm
          (card.id :: colIds (F tc)) := colIds_splice_perm newIndex card (F tc)
      have hFeq :
          F fc = { fc with items := fc.items.filter (fun item => item.id != cardId) } := by
        rw [hFdef]
        simp [hfcid]
      have hNfc : (colIds fc).Nodup := by
        have hN1 : (colIds fc ++ r1).Nodup := (List.Perm.nodup_iff h11).1 hwf.2
        exact (List.nodup_append.1 hN1).1
      have hcin : cardId ∈ colIds fc := by
        rw [← hcardid]
        exact List.mem_map_of_mem (fun item => item.id) hcmem
      have hfcperm : (colIds fc).Perm (cardId :: colIds (F fc)) := by
        rw [hFeq]
        exact colIds_filter_perm cardId fc hNfc hcin
      refine List.Perm.trans h22 ?_
      calc colIds { F tc with items := splice newIndex card (F tc).items } ++ r2
          ~ (card.id :: colIds (F tc)) ++ r2 := List.Perm.append_right r2 hsplice
        _ = card.id :: (colIds (F tc) ++ r2) := rfl
        _ ~ card.id :: ((s.columns.map F).map colIds).flatten := List.Perm.cons _ h21.symm
        _ ~ card.id :: (colIds (F fc) ++ r1) := List.Perm.cons _ h12
        _ = cardId :: (colIds (F fc) ++ r1) := by rw [hcardid]
        _ ~ boardCardIds s := (h11.trans (List.Perm.append_right r1 hfcperm)).symm

/-- A valid `reorderCardsInColumn` (the id list permutes the column's
current ids) permutes the board's card-id list. -/
theorem boardCardIds_reorder_perm (columnId : Nat) (cardIds : List Nat) (s : BoardState)
    (hN : (boardColumnIds s).Nodup)
    (hvalid : ∀ col ∈ s.columns, col.id = columnId → cardIds.Perm (colIds col)) :
    (boardCardIds (reorderCardsInColumn columnId cardIds s)).Perm (boardCardIds s) := by
  cases hfc : s.columns.find? (fun col => col.id == columnId) with
  | none =>
    have hno : ∀ c ∈ s.columns, ¬ c.id = columnId := by
      rw [List.find?_eq_none] at hfc
      intro c hc
      simpa using hfc c hc
    show (((s.columns.map _).map colIds).flatten).Perm _
    rw [map_eq_self_of _ s.columns (fun c hc => by simp [hno c hc])]
    exact List.Perm.refl _
  | some fc =>
    have hfcid : fc.id = columnId := by simpa using List.find?_some hfc
    have hfcmem : fc ∈ s.columns := List.mem_of_find?_eq_some hfc
    obtain ⟨rest, h1, h2⟩ := update_flatten_perm columnId
      (fun column => if column.id == columnId then
        { column with items :=
            cardIds.filterMap (fun cardId => column.items.find? (fun item => item.id == cardId)) }
      else column)
      (fun c hc => by simp [hc]) s.columns fc hN hfc
    have hperm : cardIds.Perm (colIds fc) := hvalid fc hfcmem hfcid
    have hFeq : (if fc.id == columnId then
        { fc with items :=
            cardIds.filterMap (fun cardId => fc.items.find? (fun item => item.id == cardId)) }
      else fc) =
        { fc with items :=
            cardIds.filterMap (fun cardId => fc.items.find? (fun item => item.id == cardId)) } := by
      simp [hfcid]
    rw [hFeq] at h2
    have hids : colIds
        { fc with items :=
            cardIds.filterMap (fun cardId => fc.items.find? (fun item => item.id == cardId)) } =
        cardIds := by
      show (cardIds.filterMap (fun cardId => fc.items.find? (fun item => item.id == cardId))).map
          (fun item => item.id) = cardIds
      rw [filterMap_find?_ids fc.items cardIds, List.filter_eq_self]
      intro cid hcid
      simpa [colIds] using hperm.subset hcid
    rw [hids] at h2
    exact h2.trans ((List.Perm.append_right rest hperm).trans h1.symm)

/-- How many columns of the board contain the card id `x`. -/
def columnsContaining (s : BoardState) (x : Nat) : Nat :=
  s.columns.countP (fun col => decide (x ∈ colIds col))

/-- With pairwise-distinct card ids, every present id is contained in
exactly one column. -/
theorem countP_columns_eq_one :
    ∀ cols : List ColumnType, ((cols.map colIds).flatten).Nodup →
      ∀ x ∈ (cols.map colIds).flatten,
        cols.countP (fun col => decide (x ∈ colIds col)) = 1
  | [], _, x, hx => by simp at hx
  | c :: cols, hN, x, hx => by
    have hN' : (colIds c ++ (cols.map colIds).flatten).Nodup := by simpa using hN
    have hdisj := List.disjoint_of_nodup_append hN'
    rcases List.mem_append.1
      (show x ∈ colIds c ++ (cols.map colIds).flatten from hx) with hxc | hxr
    · rw [List.countP_cons_of_pos _ _ (by simpa using hxc)]
      have hzero : cols.countP (fun col => decide (x ∈ colIds col)) = 0 := by
        rw [List.countP_eq_zero]
        intro col hcol
        simp only [decide_eq_true_eq]
        intro hmem
        exact hdisj hxc (List.mem_flatten.2 ⟨colIds col, List.mem_map_of_mem colIds hcol, hmem⟩)
      rw [hzero]
    · have hxnc : ¬ x ∈ colIds c := fun hxc => hdisj hxc hxr
      rw [List.countP_cons_of_neg _ _ (by simpa using hxnc)]
      exact countP_columns_eq_one cols (List.nodup_append.1 hN').2.1 x hxr

/-- With pairwise-distinct card ids, no id lies in two columns. -/
theorem unique_column_of_nodup_flatten :
    ∀ cols : List ColumnType, ((cols.map colIds).flatten).Nodup →
      ∀ a ∈ cols, ∀ b ∈ cols, ∀ x, x ∈ colIds a → x ∈ colIds b → a = b
  | [], _, a, ha, _, _, _, _, _ => absurd ha (List.not_mem_nil a)
  | c :: cols, hN, a, ha, b, hb, x, hxa, hxb => by
    have hN' : (colIds c ++ (cols.map colIds).flatten).Nodup := by simpa using hN
    have hdisj := List.disjoint_of_nodup_append hN'
    rcases List.mem_cons.1 ha with ha1 | ha2 <;> rcases List.mem_cons.1 hb with hb1 | hb2
    · rw [ha1, hb1]
    · subst ha1
      exact (hdisj hxa
        (List.mem_flatten.2 ⟨colIds b, List.mem_map_of_mem colIds hb2, hxb⟩)).elim
    · subst hb1
      exact (hdisj hxb
        (List.mem_flatten.2 ⟨colIds a, List.mem_map_of_mem colIds ha2, hxa⟩)).elim
    · exact unique_column_of_nodup_flatten cols (List.nodup_append.1 hN').2.1
        a ha2 b hb2 x hxa hxb

/-- With pairwise-distinct column ids, a column is determined by its id. -/
theorem column_eq_of_id_eq {cols : List ColumnType}
    (hN : (cols.map (fun col => col.id)).Nodup)
    {a b : ColumnType} (ha : a ∈ cols) (hb : b ∈ cols) (hEq : a.id = b.id) : a = b :=
  List.inj_on_of_nodup_map hN ha hb hEq

/-- Membership in the card ids after `deleteColumn`: exactly the ids held by
the surviving columns. -/
theorem mem_boardCardIds_deleteColumn (columnId x : Nat) (s : BoardState) :
    x ∈ boardCardIds (deleteColumn columnId s) ↔
      ∃ col ∈ s.columns, ¬ col.id = columnId ∧ x ∈ colIds col := by
  unfold boardCardIds deleteColumn
  constructor
  · intro h
    obtain ⟨l, hl, hxl⟩ := List.mem_flatten.1 h
    obtain ⟨col, hcolmem, rfl⟩ := List.mem_map.1 hl
    have hmf := List.mem_filter.1 hcolmem
    exact ⟨col, hmf.1, by simpa using hmf.2, hxl⟩
  · rintro ⟨col, hcol, hne, hx⟩
    exact List.mem_flatten.2 ⟨colIds col, List.mem_map_of_mem colIds
      (List.mem_filter.2 ⟨hcol, by simpa using hne⟩), hx⟩

/-- Side condition under which one of the three card operations of the
invariant provably conserves card ids (the amended C1): a fresh clock
reading for `addCard`, an existing destination column for `moveCard`, and an
id list permuting the column's current ids for `reorderCardsInColumn`.  Any
other store action is out of scope for the card-op invariant. -/
def validCardOp (s : BoardState) : StoreAction → Bool
  | StoreAction.addCardAct _ _ now => !((boardCardIds s).contains now)
  | StoreAction.moveCardAct _ _ toColumnId _ => (boardColumnIds s).contains toColumnId
  | StoreAction.reorderCardsInColumnAct columnId cardIds =>
      s.columns.all (fun col => col.id != columnId || cardIds.isPerm (colIds col))
  | _ => false

/-- A sequence of card operations, each valid in the state it runs in. -/
def validCardOps (s : BoardState) : List StoreAction → Bool
  | [] => true
  | op :: ops => validCardOp s op && validCardOps (applyAction op s) ops

/-- One valid card operation preserves well-formedness and loses no card
id. -/
theorem step_preserves (op : StoreAction) (s : BoardState)
    (hwf : wf s) (hv : validCardOp s op = true) :
    wf (applyAction op s) ∧ ∀ x ∈ boardCardIds s, x ∈ boardCardIds (applyAction op s) := by
  cases op with
  | addCardAct columnId title now =>
    have hfresh : now ∉ boardCardIds s := by
      simp only [validCardOp, Bool.not_eq_true'] at hv
      simpa using hv
    simp only [applyAction]
    constructor
    · constructor
      · show (boardColumnIds (addCard columnId title now s)).Nodup
        rw [boardColumnIds_addCard]
        exact hwf.1
      · cases boardCardIds_addCard columnId title now s hwf.1 with
        | inl h => rw [h]; exact hwf.2
        | inr h => exact (List.Perm.nodup_iff h).2 (List.nodup_cons.2 ⟨hfresh, hwf.2⟩)
    · intro x hx
      cases boardCardIds_addCard columnId title now s hwf.1 with
      | inl h => rw [h]; exact hx
      | inr h => exact (List.Perm.mem_iff h).2 (List.mem_cons_of_mem now hx)
  | moveCardAct cardId fromColumnId toColumnId newIndex =>
    have hto : toColumnId ∈ boardColumnIds s := by
      simp only [validCardOp] at hv
      simpa using hv
    simp only [applyAction]
    cases boardCardIds_moveCard_perm cardId fromColumnId toColumnId newIndex s hwf hto with
    | inr h =>
      rw [h]
      exact ⟨hwf, fun x hx => hx⟩
    | inl h =>
      constructor
      · constructor
        · show (boardColumnIds (moveCard cardId fromColumnId toColumnId newIndex s)).Nodup
          rw [boardColumnIds_moveCard]
          exact hwf.1
        · exact (List.Perm.nodup_iff h).2 hwf.2
      · intro x hx
        exact (List.Perm.mem_iff h).2 hx
  | reorderCardsInColumnAct columnId cardIds =>
    have hvalid : ∀ col ∈ s.columns, col.id = columnId → cardIds.Perm (colIds col) := by
      intro col hcol hid
      simp only [validCardOp, List.all_eq_true] at hv
      rcases (Bool.or_eq_true _ _).mp (hv col hcol) with h1 | h2
      · exact absurd (by simpa using h1) (by simp [hid])
      · exact List.isPerm_iff.1 h2
    have hperm := boardCardIds_reorder_perm columnId cardIds s hwf.1 hvalid
    simp only [applyAction]
    refine ⟨⟨?_, (List.Perm.nodup_iff hperm).2 hwf.2⟩, fun x hx => (List.Perm.mem_iff hperm).2 hx⟩
    show (boardColumnIds (reorderCardsInColumn columnId cardIds s)).Nodup
    rw [boardColumnIds_reorderCardsInColumn]
    exact hwf.1
  | reorderColumnsAct columnIds => exact absurd hv (by simp [validCardOp])
  | addColumnAct title now => exact absurd hv (by simp [validCardOp])
  | deleteColumnAct columnId => exact absurd hv (by simp [validCardOp])

/-- A sequence of valid card operations preserves well-formedness and loses
no card id. -/
theorem seq_preserves :
    ∀ (ops : List StoreAction) (s : BoardState), wf s → validCardOps s ops = true →
      wf (applyActions ops s) ∧
        ∀ x ∈ boardCardIds s, x ∈ boardCardIds (applyActions ops s)
  | [], s, hwf, _ => ⟨hwf, fun _ hx => hx⟩
  | op :: ops, s, hwf, hv => by
    have hv' : validCardOp s op = true ∧ validCardOps (applyAction op s) ops = true := by
      simpa [validCardOps, Bool.and_eq_true] using hv
    obtain ⟨h1, h2⟩ := step_preserves op s hwf hv'.1
    have hrec := seq_preserves ops (applyAction op s) h1 hv'.2
    exact ⟨hrec.1, fun x hx => hrec.2 x (h2 x hx)⟩

/-- C1 (amended).  Start from a board whose ids are pairwise distinct (the
spec's id-uniqueness invariant) and run any sequence of `addCard`,
`moveCard`, `reorderCardsInColumn` calls that are valid in the sense of
`validCardOp` (fresh generated id, existing destination column, permuting
id list — the conditions the counterexample shows to be necessary).  Then
every card id present at the start is present in exactly one column's item
list afterward (no loss, no duplication), well-formedness persists, and
`deleteColumn` on the resulting board removes exactly the ids that belong
to the deleted column: a surviving id survives iff it was not the deleted
column's. -/
theorem cardIds_preserved_exactly_one_column (s : BoardState) (ops : List StoreAction)
    (hwf : wf s) (hv : validCardOps s ops = true) :
    (∀ x ∈ boardCardIds s, columnsContaining (applyActions ops s) x = 1) ∧
    wf (applyActions ops s) ∧
    ∀ (columnId : Nat) (dc : ColumnType),
      (applyActions ops s).columns.find? (fun col => col.id == columnId) = some dc →
      ∀ x ∈ boardCardIds (applyActions ops s),
        (x ∈ boardCardIds (deleteColumn columnId (applyActions ops s)) ↔
          ¬ x ∈ colIds dc) := by
  obtain ⟨hwf', hmem⟩ := seq_preserves ops s hwf hv
  refine ⟨?_, hwf', ?_⟩
  · intro x hx
    exact countP_columns_eq_one (applyActions ops s).columns hwf'.2 x (hmem x hx)
  · intro columnId dc hdc x hxT
    have hdcid : dc.id = columnId := by simpa using List.find?_some hdc
    have hdcmem : dc ∈ (applyActions ops s).columns := List.mem_of_find?_eq_some hdc
    constructor
    · intro hdel hxdc
      obtain ⟨col, hcolmem, hne, hxcol⟩ :=
        (mem_boardCardIds_deleteColumn columnId x _).1 hdel
      have hcd : col = dc := unique_column_of_nodup_flatten (applyActions ops s).columns
        hwf'.2 col hcolmem dc hdcmem x hxcol hxdc
      exact hne (by rw [hcd]; exact hdcid)
    · intro hnxdc
      obtain ⟨l, hl, hxl⟩ := List.mem_flatten.1
        (show x ∈ (((applyActions ops s).columns.map colIds)).flatten from hxT)
      obtain ⟨col, hcolmem, rfl⟩ := List.mem_map.1 hl
      have hne : ¬ col.id = columnId := by
        intro hEq
        have hcd : col = dc :=
          column_eq_of_id_eq hwf'.1 hcolmem hdcmem (hEq.trans hdcid.symm)
        exact hnxdc (hcd ▸ hxl)
      exact (mem_boardCardIds_deleteColumn columnId x _).2 ⟨col, hcolmem, hne, hxl⟩

/-- A concrete valid operation sequence on the seed board: add a card to
"In Progress" (fresh id 777), move seed card 123134 from "Todo" to "Done",
then reorder "Todo" (now the single card 12423423434). -/
def demoOps : List StoreAction :=
  [ StoreAction.addCardAct 2 "New card" 777,
    StoreAction.moveCardAct 123134 3453453434 3 0,
    StoreAction.reorderCardsInColumnAct 3453453434 [12423423434] ]

/-- Witness for C1 (amended) on the seed board and `demoOps`: the seed card
123134 still lives in exactly one column, and the resulting board is
well-formed. -/
theorem cardIds_preserved_exactly_one_column_witness :
    columnsContaining (applyActions demoOps demoBoard) 123134 = 1 ∧
    wf (applyActions demoOps demoBoard) := by
  have h := cardIds_preserved_exactly_one_column demoBoard demoOps (by decide) (by decide)
  exact ⟨h.1 123134 (by decide), h.2.1⟩

/-! ## C9: id generation by `Date.now()` -/

/-- All ids of the board: column ids then card ids. -/
def boardAllIds (s : BoardState) : List Nat :=
  boardColumnIds s ++ boardCardIds s

/-- A board whose card already carries id 42 and whose column carries
id 1. -/
def collisionBoard : BoardState :=
  { boardTitle := "Board", columns :=
    [ { id := 1, title := "Column",
        items := [ { id := 42, title := "Old card", comments := [] } ] } ] }

/-- C1 counterexample: over arbitrary call sequences the conservation claim
fails on the code.  On the seed board, the one-call sequence
`reorderCardsInColumn(Todo, [])` silently drops every card of "Todo" (id
123134 was present, afterward it is in no column); the one-call sequence
`moveCard(123134, Todo, 999, 0)` with a nonexistent destination column also
loses the id; and on a board already holding card id 42, the one-call
sequence `addCard` at clock reading 42 duplicates that id.  So card ids can
be lost or duplicated by these three operations, not only removed by
`deleteColumn`. -/
theorem card_conservation_counterexample :
    (123134 ∈ boardCardIds demoBoard ∧
      123134 ∉ boardCardIds (applyActions
        [StoreAction.reorderCardsInColumnAct 3453453434 ([] : List Nat)] demoBoard)) ∧
    123134 ∉ boardCardIds (applyActions
      [StoreAction.moveCardAct 123134 3453453434 999 0] demoBoard) ∧
    boardCardIds (applyActions
      [StoreAction.addCardAct 1 "New card" 42] collisionBoard) = [42, 42] := by decide

/-- C9 counterexample: `addCard` and `addColumn` assign `Date.now()` as the
new id with no freshness check, so a clock reading equal to an existing id
collides: adding a card at clock reading 42 to `collisionBoard` yields two
cards with id 42, and adding a column at clock reading 1 yields two columns
with id 1 — refuting that newly created ids never collide with existing
ones. -/
theorem dateNow_id_collision_counterexample :
    42 ∈ boardCardIds collisionBoard ∧
    boardCardIds (addCard 1 "New card" 42 collisionBoard) = [42, 42] ∧
    1 ∈ boardColumnIds collisionBoard ∧
    boardColumnIds (addColumn "New column" 1 collisionBoard) = [1, 1] := by decide

/-- C9 (amended): the id assigned by `addCard`/`addColumn` is the clock
reading `now`; whenever that reading differs from every existing card and
column id (as wall-clock millisecond readings are intended to), the new id
is fresh and board-wide id-distinctness is preserved. -/
theorem fresh_clock_id_unique (columnId : Nat) (title : String) (now : Nat) (s : BoardState)
    (hN : (boardAllIds s).Nodup) (hfresh : now ∉ boardAllIds s) :
    (boardAllIds (addCard columnId title now s)).Nodup ∧
    (boardAllIds (addColumn title now s)).Nodup := by
  have hNcol : (boardColumnIds s).Nodup := (List.nodup_append.1 hN).1
  have hNcard : (boardCardIds s).Nodup := (List.nodup_append.1 hN).2.1
  have hdisj : (boardColumnIds s).Disjoint (boardCardIds s) := (List.nodup_append.1 hN).2.2
  have hfr1 : now ∉ boardColumnIds s := fun h => hfresh (List.mem_append.2 (Or.inl h))
  have hfr2 : now ∉ boardCardIds s := fun h => hfresh (List.mem_append.2 (Or.inr h))
  constructor
  · unfold boardAllIds
    rw [boardColumnIds_addCard]
    cases boardCardIds_addCard columnId title now s hNcol with
    | inl h => rw [h]; exact hN
    | inr h =>
      rw [List.nodup_append]
      refine ⟨hNcol, (List.Perm.nodup_iff h).2 (List.nodup_cons.2 ⟨hfr2, hNcard⟩), ?_⟩
      intro a ha hamem
      rcases List.mem_cons.1 ((List.Perm.mem_iff h).1 hamem) with h1 | h2
      · exact hfr1 (h1 ▸ ha)
      · exact hdisj ha h2
  · unfold boardAllIds
    have hcols : boardColumnIds (addColumn title now s) = boardColumnIds s ++ [now] := by
      simp [addColumn, boardColumnIds]
    have hcards : boardCardIds (addColumn title now s) = boardCardIds s := by
      simp [addColumn, boardCardIds, colIds]
    rw [hcols, hcards]
    have hperm : ((boardColumnIds s ++ [now]) ++ boardCardIds s).Perm
        (now :: (boardColumnIds s ++ boardCardIds s)) := by
      calc (boardColumnIds s ++ [now]) ++ boardCardIds s
          ~ ([now] ++ boardColumnIds s) ++ boardCardIds s :=
            List.Perm.append_right _ List.perm_append_comm
        _ = now :: (boardColumnIds s ++ boardCardIds s) := by simp
    exact (List.Perm.nodup_iff hperm).2 (List.nodup_cons.2 ⟨hfresh, hN⟩)

/-- Witness for C9 (amended) on the seed board with the fresh clock reading
999. -/
theorem fresh_clock_id_unique_witness :
    (boardAllIds (addCard 2 "Fresh card" 999 demoBoard)).Nodup ∧
    (boardAllIds (addColumn "Fresh column" 999 demoBoard)).Nodup :=
  fresh_clock_id_unique 2 "Fresh card" 999 demoBoard (by decide) (by decide)

end Trello
